import Mathlib

/-!
Verification development for the `distshell` Go package
(src/src/distshell.go): a batched concurrent dispatcher that runs a
shell command (or file retrieval) on many hosts, bounds concurrency at
a configurable batch size, records per-host outcomes, and aggregates
failures into one error.

Modelling conventions (shallow embedding):
* Go byte slices (`Host.Stdout`, command output) are modelled as
  `String`; Go `error` values are `Option String` (`none` = nil).
* The external transport call
  (`exec.Command(SSH, args...).CombinedOutput()` in `runCMD`,
  `kitutils.RunCMD(SCP, ...)` in `GetFile`) is abstracted as an oracle
  `Transport : List String → String × Option String` mapping the
  argument list handed to the external binary to the combined output
  and the optional error.  `exec.LookPath` is assumed to succeed: a
  missing binary is a process-fatal `os.Exit(1)`, out of the claims'
  scope.
* Each per-host work item runs in its own goroutine, owns its host
  record exclusively, and sends its status messages on the channel
  `cmdStatus`.  We model the dispatch loop sequentially: launching a
  work item computes its record update and appends its channel
  messages to a FIFO queue (within-batch message arrival order is
  modelled as launch order; the claims we settle depend only on
  counts, batch membership and final record state, none of which
  depend on the within-batch arrival permutation).  A drain of `k`
  messages removes the first `k` messages of the queue, exactly as the
  blocking receive loop does.
* Monitoring (`ds.monitor`) only controls printing of drained
  messages, which is I/O; the drained messages themselves are part of
  the model output (`trace`).
-/

/-- Host record, embedding the Go struct `Host` (distshell.go lines
32-38): identity, captured output of the most recent run, assigned
command and arguments, and the error of the most recent run
(`none` = Go `nil`). -/
structure Host where
  Name : String
  Stdout : String
  cmd : String
  args : List String
  CmdError : Option String
deriving Repr, DecidableEq

/-- Dispatch session, embedding the Go struct `DistShell` (lines
41-45).  `maxBatch` is a Go `int`, hence `Int`. -/
structure DistShell where
  HOSTS : List Host
  monitor : Bool
  maxBatch : Int
deriving Repr, DecidableEq

/-- Oracle for the external transport binary: argument list to
(combined output, optional error). -/
def Transport : Type := List String → String × Option String

/-- Embeds `buildHost` (lines 62-70): one fresh record per identity. -/
def buildHost (hList : List String) : List Host :=
  hList.map fun n => { Name := n, Stdout := "", cmd := "", args := [], CmdError := none }

/-- Embeds `New` (lines 49-52): monitoring on, `maxBatch` 50. -/
def New (hList : List String) : DistShell :=
  { HOSTS := buildHost hList, monitor := true, maxBatch := 50 }

/-- Embeds `SetMaxBatch` (lines 83-85). -/
def SetMaxBatch (ds : DistShell) (n : Int) : DistShell :=
  { ds with maxBatch := n }

/-- Recursive core of `AddCommand` (lines 88-97): scan the host list
in order; on the first record whose `Name` matches, set `cmd`/`args`
and stop with `true`; if no record matches, return `false` with the
list unchanged. -/
def addCommandList : List Host → String → String → List String → Bool × List Host
  | [], _, _, _ => (false, [])
  | x :: rest, h, command, args =>
      if x.Name = h then
        (true, { x with cmd := command, args := args } :: rest)
      else
        let r := addCommandList rest h command args
        (r.1, x :: r.2)

/-- Embeds `AddCommand` (lines 88-97). -/
def AddCommand (ds : DistShell) (h command : String) (args : List String) : Bool × DistShell :=
  let r := addCommandList ds.HOSTS h command args
  (r.1, { ds with HOSTS := r.2 })

/-- The ssh argument list built by `runCMD` (lines 222-231) through
successive `append`s: the two fixed option pairs, the host identity,
the assigned command, then its arguments. -/
def sshArgs (h : Host) : List String :=
  ["-o", "StrictHostKeyChecking=no", "-o", "BatchMode=yes", h.Name, h.cmd] ++ h.args

/-- Embeds `runCMD` (lines 208-243).  Returns the updated host
record, the status messages sent on the channel in send order, and
the argument lists of the transport invocations made.  Note the Go
code's empty-command branch (lines 210-213) sends a message and sets
`CmdError` but does NOT return: the transport is still invoked with
the empty command, a second message is sent, and `Stdout`/`CmdError`
are overwritten by the transport outcome. -/
def runCMD (t : Transport) (h : Host) : Host × List String × List (List String) :=
  let h1 := if h.cmd = "" then { h with CmdError := some "no available command to execute" } else h
  let msgs1 : List String :=
    if h.cmd = "" then ["ERROR: host " ++ h.Name ++ " has no available command to execute"] else []
  let out := (t (sshArgs h)).1
  match (t (sshArgs h)).2 with
  | some e =>
      ({ h1 with Stdout := out, CmdError := some e },
       msgs1 ++ ["ERROR: Failed to exec command on host " ++ h.Name ++ ": " ++ e],
       [sshArgs h])
  | none =>
      ({ h1 with Stdout := out },
       msgs1 ++ ["INFO: completed running command on host " ++ h.Name],
       [sshArgs h])

/-- The scp argument list built by the `GetFile` closure (lines
167-168): fixed options, `host:remotePath` source, common
destination. -/
def scpArgs (filestring destination : String) (h : Host) : List String :=
  ["-o", "BatchMode=yes", "-o", "StrictHostKeyChecking=no",
   h.Name ++ ":" ++ filestring, destination]

/-- Embeds the anonymous per-host goroutine of `GetFile` (lines
166-175).  On transport failure it sets `CmdError` and sends an ERROR
message embedding the captured output; on success it sends a SUCCESS
message.  Unlike `runCMD`, it never writes `Stdout` on the record. -/
def getFileTask (t : Transport) (filestring destination : String) (h : Host) :
    Host × List String × List (List String) :=
  let out := (t (scpArgs filestring destination h)).1
  match (t (scpArgs filestring destination h)).2 with
  | some e =>
      ({ h with CmdError := some e },
       [h.Name ++ ": ERROR " ++ out ++ ": " ++ e],
       [scpArgs filestring destination h])
  | none =>
      (h, [h.Name ++ ": SUCCESS"], [scpArgs filestring destination h])

/-- Observable event of the dispatch loop: launching one work item
(with the messages it will send), or draining a run of messages from
the status channel. -/
inductive Ev where
  | launch (msgs : List String)
  | drain (msgs : List String)
deriving Repr, DecidableEq

/-- Embeds the batch/drain loop shared verbatim (modulo the work
function) by `Execute` (lines 105-121) and `GetFile` (lines 165-190):
for each host in order, launch its work item (append its messages to
the channel queue), increment `runningCount` and `TotalCmdsRun`;
when `runningCount >= maxBatch` or `TotalCmdsRun >= TotalHosts`,
drain exactly `runningCount` messages from the queue and reset
`runningCount` to zero.  Returns the final host list (in session
order), the undrained messages left in the queue, and the event
trace. -/
def dispatchLoop (work : Host → Host × List String) (maxBatch : Int) (total : Nat) :
    List Host → List Host → List String → Nat → Nat → List Ev →
    List Host × List String × List Ev
  | [], acc, queue, _, _, trace => (acc.reverse, queue, trace.reverse)
  | h :: rest, acc, queue, running, ran, trace =>
      let h2 := (work h).1
      let msgs := (work h).2
      let queue1 := queue ++ msgs
      let running1 := running + 1
      let ran1 := ran + 1
      let trace1 := Ev.launch msgs :: trace
      if maxBatch ≤ (running1 : Int) ∨ total ≤ ran1 then
        dispatchLoop work maxBatch total rest (h2 :: acc) (queue1.drop running1) 0 ran1
          (Ev.drain (queue1.take running1) :: trace1)
      else
        dispatchLoop work maxBatch total rest (h2 :: acc) queue1 running1 ran1 trace1

/-- Embeds the failed-host scan shared by `Execute` (lines 124-129)
and `GetFile` (lines 193-198): fold over the records, appending
`Name ++ ","` for each record with a non-nil `CmdError`. -/
def failedHostsString (hosts : List Host) : String :=
  hosts.foldl (fun s h => if h.CmdError.isSome then s ++ h.Name ++ "," else s) ""

/-- Embeds `strings.TrimRight(s, ",")` (lines 132 and 201): remove
every trailing comma. -/
def trimRightCommas (s : String) : String :=
  ⟨(s.data.reverse.dropWhile fun c => c = ',').reverse⟩

/-- Embeds the aggregate-error computation shared by `Execute` (lines
124-136) and `GetFile` (lines 192-204): `none` when the scan string is
empty, otherwise the scan string with trailing commas trimmed. -/
def aggregateError (hosts : List Host) : Option String :=
  let failedHosts := failedHostsString hosts
  if failedHosts = "" then none else some (trimRightCommas failedHosts)

/-- Result of one dispatch call: the updated session, the returned
error, the event trace of the loop, and any messages left undrained
in the channel queue. -/
structure DispatchOut where
  ds : DistShell
  err : Option String
  trace : List Ev
  leftover : List String
deriving Repr, DecidableEq

/-- Embeds `Execute` (lines 100-137): run the batch/drain loop with
`runCMD` as the work function, then scan for failed hosts. -/
def Execute (t : Transport) (ds : DistShell) : DispatchOut :=
  let r := dispatchLoop (fun h => ((runCMD t h).1, (runCMD t h).2.1))
      ds.maxBatch ds.HOSTS.length ds.HOSTS [] [] 0 0 []
  { ds := { ds with HOSTS := r.1 }, err := aggregateError r.1,
    trace := r.2.2, leftover := r.2.1 }

/-- Embeds `GetFile` (lines 153-205): run the batch/drain loop with
the per-host scp closure as the work function, then scan for failed
hosts. -/
def GetFile (t : Transport) (filestring destination : String) (ds : DistShell) : DispatchOut :=
  let r := dispatchLoop (fun h => ((getFileTask t filestring destination h).1,
        (getFileTask t filestring destination h).2.1))
      ds.maxBatch ds.HOSTS.length ds.HOSTS [] [] 0 0 []
  { ds := { ds with HOSTS := r.1 }, err := aggregateError r.1,
    trace := r.2.2, leftover := r.2.1 }

/-- Recursive core of `GetHostStdout` (lines 255-262): return the
`Stdout` of the first record whose `Name` matches; if none does,
return the literal byte slice spelling "no output". -/
def getHostStdoutList : List Host → String → String
  | [], _ => "no output"
  | x :: rest, h => if x.Name = h then x.Stdout else getHostStdoutList rest h

/-- Embeds `GetHostStdout` (lines 255-262). -/
def GetHostStdout (ds : DistShell) (h : String) : String :=
  getHostStdoutList ds.HOSTS h

/-- Spec-side definition (from the spec's words, for C3): the
comma-separated join of a list of identities, in order, with no
leading or trailing comma. -/
def commaJoin : List String → String
  | [] => ""
  | [x] => x
  | x :: y :: rest => x ++ "," ++ commaJoin (y :: rest)

/-- Recursive form of the failed-host scan's string accumulation:
each name followed by a comma, concatenated in order.  Used to relate
the `foldl` in `failedHostsString` to `commaJoin`. -/
def catCommas : List String → String
  | [] => ""
  | x :: rest => x ++ "," ++ catCommas rest

/-- Spec-side definition (for C4/C5): the expected batch-size
decomposition of `n` work items at batch width `mm`: full batches of
`max 1 mm` followed by one final partial batch. -/
def batchSizesN (mm : Nat) : Nat → List Nat
  | 0 => []
  | n + 1 =>
      let b := min (max 1 mm) (n + 1)
      b :: batchSizesN mm (n + 1 - b)
termination_by n => n
decreasing_by
  have h1 : 1 ≤ min (max 1 mm) (n + 1) :=
    le_min (le_max_left 1 mm) (Nat.succ_le_succ (Nat.zero_le n))
  omega

/-- Spec-side definition (for C4): the canonical event trace of a
fully batched run: for each batch size `k`, the `k` launches of that
batch followed by one drain containing exactly those launches'
messages. -/
def mkBlocks (msgss : List (List String)) : List Nat → List Ev
  | [] => []
  | k :: rest =>
      ((msgss.take k).map Ev.launch) ++
        (Ev.drain (msgss.take k).flatten :: mkBlocks (msgss.drop k) rest)

/-- Number of drain events in a trace (for C5: a single batch means a
single drain). -/
def countDrains : List Ev → Nat
  | [] => 0
  | Ev.drain _ :: rest => countDrains rest + 1
  | Ev.launch _ :: rest => countDrains rest

/-- Concrete transport for witnesses: always succeeds with output
"ok". -/
def demoOk : Transport := fun _ => ("ok", none)

/-- Concrete transport for witnesses: always fails. -/
def demoFail : Transport := fun _ => ("out", some "exit status 1")

/-- Concrete transport for witnesses: fails exactly when the argument
list mentions host "h1". -/
def demoFailH1 : Transport :=
  fun args => if "h1" ∈ args then ("", some "exit status 1") else ("ok", none)

/-- Concrete session for witnesses: three hosts with assigned
commands and a batch width of 2. -/
def demoDS3 : DistShell :=
  SetMaxBatch
    ((AddCommand
      ((AddCommand
        ((AddCommand (New ["a", "b", "c"]) "a" "/bin/df" []).2)
        "b" "/bin/df" []).2)
      "c" "/bin/df" []).2) 2

theorem runCMD_Name (t : Transport) (h : Host) : (runCMD t h).1.Name = h.Name := by
  unfold runCMD
  rcases ht : (t (sshArgs h)).2 with _ | e <;> simp [ht] <;> split <;> simp

theorem runCMD_cmd_args (t : Transport) (h : Host) :
    (runCMD t h).1.cmd = h.cmd ∧ (runCMD t h).1.args = h.args := by
  unfold runCMD
  rcases ht : (t (sshArgs h)).2 with _ | e <;> simp [ht] <;> constructor <;> split <;> simp

theorem runCMD_Stdout (t : Transport) (h : Host) :
    (runCMD t h).1.Stdout = (t (sshArgs h)).1 := by
  unfold runCMD
  rcases ht : (t (sshArgs h)).2 with _ | e <;> simp [ht]

theorem runCMD_msgs_length (t : Transport) (h : Host) (hc : h.cmd ≠ "") :
    ((runCMD t h).2.1).length = 1 := by
  unfold runCMD
  rcases ht : (t (sshArgs h)).2 with _ | e <;> simp [ht, hc]

theorem getFileTask_Name (t : Transport) (f d : String) (h : Host) :
    (getFileTask t f d h).1.Name = h.Name := by
  unfold getFileTask
  rcases ht : (t (scpArgs f d h)).2 with _ | e <;> simp [ht]

theorem getFileTask_cmd_args (t : Transport) (f d : String) (h : Host) :
    (getFileTask t f d h).1.cmd = h.cmd ∧ (getFileTask t f d h).1.args = h.args := by
  unfold getFileTask
  rcases ht : (t (scpArgs f d h)).2 with _ | e <;> simp [ht]

theorem getFileTask_Stdout (t : Transport) (f d : String) (h : Host) :
    (getFileTask t f d h).1.Stdout = h.Stdout := by
  unfold getFileTask
  rcases ht : (t (scpArgs f d h)).2 with _ | e <;> simp [ht]

theorem getFileTask_msgs_length (t : Transport) (f d : String) (h : Host) :
    ((getFileTask t f d h).2.1).length = 1 := by
  unfold getFileTask
  rcases ht : (t (scpArgs f d h)).2 with _ | e <;> simp [ht]

theorem dispatchLoop_hosts (work : Host → Host × List String) (m : Int) (total : Nat) :
    ∀ (rem acc : List Host) (queue : List String) (running ran : Nat) (trace : List Ev),
      (dispatchLoop work m total rem acc queue running ran trace).1 =
        acc.reverse ++ rem.map fun h => (work h).1 := by
  intro rem
  induction rem with
  | nil => intro acc queue running ran trace; simp [dispatchLoop]
  | cons h rest ih =>
      intro acc queue running ran trace
      simp only [dispatchLoop]
      split <;> rw [ih] <;> simp

theorem failedHostsString_eq_catCommas (hosts : List Host) :
    failedHostsString hosts =
      catCommas ((hosts.filter fun h => h.CmdError.isSome).map Host.Name) := by
  have key : ∀ (l : List Host) (s : String),
      l.foldl (fun s h => if h.CmdError.isSome then s ++ h.Name ++ "," else s) s =
        s ++ catCommas ((l.filter fun h => h.CmdError.isSome).map Host.Name) := by
    intro l
    induction l with
    | nil => intro s; simp [catCommas]
    | cons x rest ih =>
        intro s
        by_cases hx : x.CmdError.isSome
        · simp only [List.foldl_cons, hx, if_pos, List.filter_cons_of_pos, List.map_cons,
            catCommas, ih]
          simp [String.append_assoc]
        · simp only [List.foldl_cons, hx, if_neg, List.filter_cons_of_neg, ih]
          simp [hx]
  simpa [failedHostsString] using key hosts ""

theorem dropWhile_comma_eq_self (l : List Char) (hl : ',' ∉ l) :
    (l.dropWhile fun c => c = ',') = l := by
  cases l with
  | nil => rfl
  | cons c r =>
      have hc : c ≠ ',' := by intro h; exact hl (h ▸ List.mem_cons_self c r)
      simp [List.dropWhile_cons, hc]

theorem trimRightCommas_append (a b : String) (hb : trimRightCommas b ≠ "") :
    trimRightCommas (a ++ b) = a ++ trimRightCommas b := by
  have hdw : ¬ (b.data.reverse.dropWhile fun c => c = ',').isEmpty := by
    intro hemp
    apply hb
    rw [String.ext_iff]
    show ((b.data.reverse.dropWhile fun c => c = ',').reverse) = "".data
    simp only [List.isEmpty_iff] at hemp
    simp [hemp]
  rw [String.ext_iff]
  show ((a ++ b).data.reverse.dropWhile fun c => c = ',').reverse =
    (a ++ ⟨(b.data.reverse.dropWhile fun c => c = ',').reverse⟩).data
  rw [String.data_append, String.data_append, List.reverse_append, List.dropWhile_append,
    if_neg hdw]
  simp

theorem trimRightCommas_single (x : String) (_hx : x ≠ "") (hc : ',' ∉ x.data) :
    trimRightCommas (x ++ ",") = x := by
  rw [String.ext_iff]
  show ((x ++ ",").data.reverse.dropWhile fun c => c = ',').reverse = x.data
  rw [String.data_append]
  have hcomma : ("," : String).data = [','] := rfl
  rw [hcomma, List.reverse_append]
  simp only [List.reverse_cons, List.reverse_nil, List.nil_append, List.singleton_append,
    List.dropWhile_cons]
  have : (',' : Char) = ',' := rfl
  simp only [decide_eq_true_eq, if_pos this]
  rw [dropWhile_comma_eq_self _ (by simpa using hc)]
  simp

theorem commaJoin_ne_empty (y : String) (rest : List String) (hy : y ≠ "") :
    commaJoin (y :: rest) ≠ "" := by
  cases rest with
  | nil => simpa [commaJoin] using hy
  | cons z r =>
      simp only [commaJoin]
      intro h
      rw [String.ext_iff, String.data_append, String.data_append] at h
      have hcomma : ("," : String).data = [','] := rfl
      have hnil : ("" : String).data = [] := rfl
      rw [hcomma, hnil] at h
      simp at h

theorem trimRightCommas_catCommas (l : List String)
    (hl : ∀ x ∈ l, x ≠ "" ∧ ',' ∉ x.data) (hne : l ≠ []) :
    trimRightCommas (catCommas l) = commaJoin l := by
  induction l with
  | nil => exact absurd rfl hne
  | cons x rest ih =>
      rcases hl x (List.mem_cons_self x rest) with ⟨hx, hxc⟩
      cases rest with
      | nil =>
          show trimRightCommas (x ++ "," ++ catCommas []) = commaJoin [x]
          have : x ++ "," ++ catCommas [] = x ++ "," := by
            show x ++ "," ++ "" = x ++ ","
            simp
          rw [this, commaJoin, trimRightCommas_single x hx hxc]
      | cons y r =>
          have hrest : ∀ z ∈ y :: r, z ≠ "" ∧ ',' ∉ z.data := by
            intro z hz; exact hl z (List.mem_cons_of_mem x hz)
          have hyne : y ≠ "" := (hrest y (List.mem_cons_self y r)).1
          have ihr := ih hrest (by simp)
          show trimRightCommas (x ++ "," ++ catCommas (y :: r)) = commaJoin (x :: y :: r)
          rw [trimRightCommas_append (x ++ ",") _
            (by rw [ihr]; exact commaJoin_ne_empty y r hyne), ihr]
          simp [commaJoin, String.append_assoc]

theorem catCommas_ne_empty (x : String) (rest : List String) :
    catCommas (x :: rest) ≠ "" := by
  simp only [catCommas]
  intro h
  rw [String.ext_iff, String.data_append, String.data_append] at h
  have : ("," : String).data = [','] := rfl
  rw [this] at h
  rcases x.data with _ | ⟨c, cs⟩ <;> simp at h

theorem aggregateError_spec (hosts : List Host)
    (hname : ∀ h ∈ hosts, h.Name ≠ "" ∧ ',' ∉ h.Name.data) :
    (aggregateError hosts = none ↔
      ((hosts.filter fun h => h.CmdError.isSome).map Host.Name) = []) ∧
    (((hosts.filter fun h => h.CmdError.isSome).map Host.Name) ≠ [] →
      aggregateError hosts =
        some (commaJoin ((hosts.filter fun h => h.CmdError.isSome).map Host.Name))) := by
  rw [aggregateError]
  rw [failedHostsString_eq_catCommas]
  rcases hfail : (hosts.filter fun h => h.CmdError.isSome).map Host.Name with _ | ⟨x, rest⟩
  · rw [hfail]
    simp [catCommas]
  · rw [hfail, if_neg (catCommas_ne_empty x rest)]
    refine ⟨by simp, fun _ => ?_⟩
    congr 1
    apply trimRightCommas_catCommas
    · intro z hz
      rw [← hfail] at hz
      rcases List.mem_map.mp hz with ⟨hh, hhmem, hhz⟩
      exact hhz ▸ hname hh (List.mem_of_mem_filter hhmem)
    · simp

theorem batchSizesN_zero (mm : Nat) : batchSizesN mm 0 = [] := by
  simp [batchSizesN]

theorem batchSizesN_succ (mm n : Nat) :
    batchSizesN mm (n + 1) =
      min (max 1 mm) (n + 1) :: batchSizesN mm (n + 1 - min (max 1 mm) (n + 1)) := by
  rw [batchSizesN]

theorem batchSizesN_sum (mm : Nat) : ∀ n, (batchSizesN mm n).sum = n := by
  intro n
  induction n using Nat.strong_induction_on with
  | _ n ih =>
      cases n with
      | zero => simp [batchSizesN_zero]
      | succ n =>
          rw [batchSizesN_succ]
          have hb1 : 1 ≤ min (max 1 mm) (n + 1) :=
            le_min (le_max_left 1 mm) (by omega)
          have hb2 : min (max 1 mm) (n + 1) ≤ n + 1 := min_le_right _ _
          rw [List.sum_cons, ih (n + 1 - min (max 1 mm) (n + 1)) (by omega)]
          omega

theorem batchSizesN_mem (mm : Nat) :
    ∀ n k, k ∈ batchSizesN mm n → 1 ≤ k ∧ k ≤ max 1 mm := by
  intro n
  induction n using Nat.strong_induction_on with
  | _ n ih =>
      cases n with
      | zero => intro k hk; rw [batchSizesN_zero] at hk; simp at hk
      | succ n =>
          intro k hk
          rw [batchSizesN_succ] at hk
          have hb1 : 1 ≤ min (max 1 mm) (n + 1) :=
            le_min (le_max_left 1 mm) (by omega)
          rcases List.mem_cons.mp hk with h | h
          · subst h
            exact ⟨hb1, min_le_left _ _⟩
          · exact ih (n + 1 - min (max 1 mm) (n + 1)) (by omega) k h

theorem dispatchLoop_fill (work : Host → Host × List String) (m : Int) (total : Nat) :
    ∀ (k : Nat) (rem acc : List Host) (queue : List String)
      (running ran : Nat) (trace : List Ev),
      k ≤ rem.length →
      (∀ j : Nat, 1 ≤ j → j ≤ k → ¬(m ≤ ((running + j : Nat) : Int) ∨ total ≤ ran + j)) →
      dispatchLoop work m total rem acc queue running ran trace =
        dispatchLoop work m total (rem.drop k)
          (((rem.take k).map fun h => (work h).1).reverse ++ acc)
          (queue ++ ((rem.take k).map fun h => (work h).2).flatten)
          (running + k) (ran + k)
          (((rem.take k).map fun h => Ev.launch (work h).2).reverse ++ trace) := by
  intro k
  induction k with
  | zero => intro rem acc queue running ran trace _ _; simp
  | succ k ih =>
      intro rem acc queue running ran trace hk hcond
      cases rem with
      | nil => simp at hk
      | cons h rest =>
          have hstep : ¬(m ≤ ((running + 1 : Nat) : Int) ∨ total ≤ ran + 1) :=
            hcond 1 le_rfl (by omega)
          have e1 : running + (k + 1) = running + 1 + k := by omega
          have e2 : ran + (k + 1) = ran + 1 + k := by omega
          rw [e1, e2]
          simp only [dispatchLoop]
          rw [if_neg hstep]
          rw [ih rest ((work h).1 :: acc) (queue ++ (work h).2) (running + 1) (ran + 1)
            (Ev.launch (work h).2 :: trace)
            (by simpa using hk)
            (by
              intro j hj1 hjk
              have h3 := hcond (j + 1) (by omega) (by omega)
              rw [show running + (j + 1) = running + 1 + j from by omega,
                show ran + (j + 1) = ran + 1 + j from by omega] at h3
              exact h3)]
          simp [List.take_succ_cons, List.drop_succ_cons, List.append_assoc]

theorem dispatchLoop_fresh (work : Host → Host × List String) (m : Int) (hm : 1 ≤ m)
    (total : Nat) :
    ∀ (n : Nat) (rem acc : List Host) (ran : Nat) (trace : List Ev),
      rem.length = n → ran + n = total →
      (∀ h ∈ rem, ((work h).2).length = 1) →
      dispatchLoop work m total rem acc [] 0 ran trace =
        (acc.reverse ++ rem.map fun h => (work h).1, [],
         trace.reverse ++ mkBlocks (rem.map fun h => (work h).2) (batchSizesN m.toNat n)) := by
  intro n
  induction n using Nat.strong_induction_on with
  | _ n ih =>
    intro rem acc ran trace hlen hran hmsg
    cases n with
    | zero =>
        have hnil : rem = [] := List.length_eq_zero.mp hlen
        subst hnil
        simp [dispatchLoop, mkBlocks, batchSizesN_zero]
    | succ n =>
        have hmm : 1 ≤ m.toNat := by omega
        set b := min m.toNat (n + 1) with hbdef
        have hb1 : 1 ≤ b := by omega
        have hb2 : b ≤ n + 1 := by omega
        have hble : b ≤ m.toNat := by omega
        have hfill := dispatchLoop_fill work m total (b - 1) rem acc [] 0 ran trace
          (by omega)
          (by
            intro j hj1 hj2
            rintro (hc | hc)
            · omega
            · omega)
        rw [hfill]
        rcases hdrop : rem.drop (b - 1) with _ | ⟨hd, tl⟩
        · exfalso
          have hdl := congrArg List.length hdrop
          simp [hlen] at hdl
          omega
        · have hhd : hd ∈ rem :=
            List.drop_subset (b - 1) rem (by rw [hdrop]; exact List.mem_cons_self hd tl)
          have hcond : m ≤ ((0 + (b - 1) + 1 : Nat) : Int) ∨ total ≤ ran + (b - 1) + 1 := by
            omega
          simp only [dispatchLoop]
          rw [if_pos hcond]
          simp only [List.nil_append]
          have e3 : 0 + (b - 1) + 1 = b := by omega
          have e4 : ran + (b - 1) + 1 = ran + b := by omega
          rw [e3, e4]
          have htakelen : (rem.take (b - 1)).length = b - 1 := by
            simp [hlen]
            omega
          have hflatlen :
              ((((rem.take (b - 1)).map fun h => (work h).2).flatten).length) = b - 1 := by
            rw [List.length_flatten, List.map_map]
            have hrepl : ((rem.take (b - 1)).map fun h => ((work h).2).length) =
                List.replicate (b - 1) 1 := by
              refine List.eq_replicate_iff.mpr ⟨by simpa using htakelen, ?_⟩
              intro x hx
              rcases List.mem_map.mp hx with ⟨hh, hhmem, rfl⟩
              exact hmsg hh (List.take_subset _ _ hhmem)
            have hcomp : (List.length ∘ fun h => (work h).2) = fun h : Host => ((work h).2).length := rfl
            rw [hcomp, hrepl]
            simp
          have hqlen :
              ((((rem.take (b - 1)).map fun h => (work h).2).flatten ++ (work hd).2).length) = b := by
            rw [List.length_append, hflatlen, hmsg hd hhd]
            omega
          rw [List.take_of_length_le (le_of_eq hqlen), List.drop_of_length_le (le_of_eq hqlen)]
          have hlentl : tl.length = n + 1 - b := by
            have hdl := congrArg List.length hdrop
            simp [hlen] at hdl
            omega
          rw [ih (n + 1 - b) (by omega) tl _ (ran + b) _ hlentl (by omega)
            (by
              intro h hh
              exact hmsg h (List.drop_subset (b - 1) rem (by rw [hdrop]; exact List.mem_cons_of_mem hd hh)))]
          have hsplit : rem.take (b - 1) ++ hd :: tl = rem := by
            rw [← hdrop]
            exact List.take_append_drop _ _
          have hbatch : batchSizesN m.toNat (n + 1) = b :: batchSizesN m.toNat (n + 1 - b) := by
            rw [batchSizesN_succ, max_eq_right hmm, ← hbdef]
          have htakeb : rem.take b = rem.take (b - 1) ++ [hd] := by
            conv_lhs => rw [← hsplit]
            rw [List.take_append_eq_append_take, htakelen,
              List.take_of_length_le (by omega : (rem.take (b - 1)).length ≤ b)]
            congr 1
            rw [show b - (b - 1) = 1 from by omega]
            rfl
          have hdropb : rem.drop b = tl := by
            conv_lhs => rw [← hsplit]
            rw [List.drop_append_eq_append_drop, htakelen,
              List.drop_of_length_le (by omega : (rem.take (b - 1)).length ≤ b)]
            rw [show b - (b - 1) = 1 from by omega]
            rfl
          have hmapf1 : rem.map (fun h => (work h).1) =
              (rem.take (b - 1)).map (fun h => (work h).1) ++
                (work hd).1 :: tl.map (fun h => (work h).1) := by
            conv_lhs => rw [← hsplit]
            simp
          have hmapf2take : (rem.map fun h => (work h).2).take b =
              ((rem.take (b - 1)).map fun h => (work h).2) ++ [(work hd).2] := by
            rw [← List.map_take, htakeb]
            simp
          have hmapf2drop : (rem.map fun h => (work h).2).drop b =
              tl.map fun h => (work h).2 := by
            rw [← List.map_drop, hdropb]
          rw [hbatch]
          simp only [mkBlocks]
          rw [hmapf2take, hmapf2drop, hmapf1]
          simp [List.reverse_cons, List.reverse_append, List.append_assoc, List.flatten_append]
          rfl

theorem countDrains_append : ∀ l1 l2 : List Ev,
    countDrains (l1 ++ l2) = countDrains l1 + countDrains l2 := by
  intro l1
  induction l1 with
  | nil => intro l2; simp [countDrains]
  | cons e rest ih =>
      intro l2
      cases e with
      | launch msgs => simp [countDrains, ih]
      | drain msgs => simp [countDrains, ih]; omega

theorem countDrains_reverse : ∀ l : List Ev, countDrains l.reverse = countDrains l := by
  intro l
  induction l with
  | nil => rfl
  | cons e rest ih =>
      cases e with
      | launch msgs => simp [countDrains, countDrains_append, ih]
      | drain msgs => simp [countDrains, countDrains_append, ih]

theorem dispatchLoop_batch_irrelevant (work : Host → Host × List String) (total : Nat)
    (m1 m2 : Int) (h1 : (total : Int) ≤ m1) (h2 : (total : Int) ≤ m2) :
    ∀ (rem acc : List Host) (queue : List String) (running ran : Nat) (trace : List Ev),
      running ≤ ran →
      dispatchLoop work m1 total rem acc queue running ran trace =
        dispatchLoop work m2 total rem acc queue running ran trace := by
  intro rem
  induction rem with
  | nil => intro acc queue running ran trace _; simp [dispatchLoop]
  | cons h rest ih =>
      intro acc queue running ran trace hrr
      have hiff1 : (m1 ≤ ((running + 1 : Nat) : Int) ∨ total ≤ ran + 1) ↔ total ≤ ran + 1 := by
        omega
      have hiff2 : (m2 ≤ ((running + 1 : Nat) : Int) ∨ total ≤ ran + 1) ↔ total ≤ ran + 1 := by
        omega
      simp only [dispatchLoop]
      by_cases hc : total ≤ ran + 1
      · rw [if_pos (hiff1.mpr hc), if_pos (hiff2.mpr hc)]
        exact ih _ _ _ _ _ (by omega)
      · rw [if_neg (fun hx => hc (hiff1.mp hx)), if_neg (fun hx => hc (hiff2.mp hx))]
        exact ih _ _ _ _ _ (by omega)

theorem dispatchLoop_single_drain (work : Host → Host × List String) (m : Int) (total : Nat)
    (hm : (total : Int) ≤ m) :
    ∀ (rem acc : List Host) (queue : List String) (running ran : Nat) (trace : List Ev),
      running ≤ ran → ran + rem.length = total → rem ≠ [] →
      countDrains (dispatchLoop work m total rem acc queue running ran trace).2.2 =
        countDrains trace + 1 := by
  intro rem
  induction rem with
  | nil => intro acc queue running ran trace _ _ hne; exact absurd rfl hne
  | cons h rest ih =>
      intro acc queue running ran trace hrr hlen _
      simp only [dispatchLoop]
      cases rest with
      | nil =>
          have hc : m ≤ ((running + 1 : Nat) : Int) ∨ total ≤ ran + 1 := by
            right
            simp at hlen
            omega
          rw [if_pos hc]
          simp only [dispatchLoop]
          rw [countDrains_reverse]
          simp [countDrains]
      | cons h2 rest2 =>
          have hc : ¬ (m ≤ ((running + 1 : Nat) : Int) ∨ total ≤ ran + 1) := by
            simp only [List.length_cons] at hlen
            omega
          rw [if_neg hc]
          exact ih _ _ _ _ _ (by omega) (by simp at hlen ⊢; omega) (by simp)

theorem Execute_HOSTS (t : Transport) (ds : DistShell) :
    (Execute t ds).ds.HOSTS = ds.HOSTS.map fun h => (runCMD t h).1 := by
  show (dispatchLoop _ ds.maxBatch ds.HOSTS.length ds.HOSTS [] [] 0 0 []).1 = _
  rw [dispatchLoop_hosts]
  simp

theorem GetFile_HOSTS (t : Transport) (fs dest : String) (ds : DistShell) :
    (GetFile t fs dest ds).ds.HOSTS = ds.HOSTS.map fun h => (getFileTask t fs dest h).1 := by
  show (dispatchLoop _ ds.maxBatch ds.HOSTS.length ds.HOSTS [] [] 0 0 []).1 = _
  rw [dispatchLoop_hosts]
  simp

theorem Execute_err (t : Transport) (ds : DistShell) :
    (Execute t ds).err = aggregateError (Execute t ds).ds.HOSTS := rfl

theorem GetFile_err (t : Transport) (fs dest : String) (ds : DistShell) :
    (GetFile t fs dest ds).err = aggregateError (GetFile t fs dest ds).ds.HOSTS := rfl

theorem Execute_names (t : Transport) (ds : DistShell) :
    (Execute t ds).ds.HOSTS.map Host.Name = ds.HOSTS.map Host.Name := by
  rw [Execute_HOSTS, List.map_map]
  exact List.map_congr_left fun x _ => runCMD_Name t x

theorem GetFile_names (t : Transport) (fs dest : String) (ds : DistShell) :
    (GetFile t fs dest ds).ds.HOSTS.map Host.Name = ds.HOSTS.map Host.Name := by
  rw [GetFile_HOSTS, List.map_map]
  exact List.map_congr_left fun x _ => getFileTask_Name t fs dest x

/-- C1: the claim states that for a host whose assigned command is
empty, `runCMD` records the "no available command to execute" error,
emits exactly one failure status message, and returns without invoking
the external secure-shell transport.  The code records the error but
is missing a `return` in the empty-command branch (lines 210-213): it
proceeds to invoke ssh with the empty command and emits a SECOND
status message.  This theorem evaluates the embedded `runCMD` on a
host with no assigned command: two messages are sent and one transport
invocation (with empty command argument) is made, refuting the
"exactly one message, no transport invocation" part of the claim while
confirming that the error is recorded. -/
theorem C1_empty_command_still_invokes_transport :
    (runCMD demoOk { Name := "h1", Stdout := "", cmd := "", args := [], CmdError := none }).2.1 =
      ["ERROR: host h1 has no available command to execute",
       "INFO: completed running command on host h1"] ∧
    (runCMD demoOk { Name := "h1", Stdout := "", cmd := "", args := [], CmdError := none }).2.2 =
      [["-o", "StrictHostKeyChecking=no", "-o", "BatchMode=yes", "h1", ""]] ∧
    (runCMD demoFail { Name := "h1", Stdout := "", cmd := "", args := [], CmdError := none }).1.CmdError =
      some "exit status 1" := by
  refine ⟨rfl, rfl, rfl⟩

/-- C2 counterexample: the claim states `lastError` is overwritten on
each dispatch and is absent whenever the most recent run succeeded.
Take one host, assign it a command, dispatch with a failing transport,
then dispatch again with a succeeding transport: the second (successful)
run leaves the stale error in place, and the second call even returns
the aggregate error "h1".  The code never clears `CmdError` on the
success path (lines 239-242). -/
theorem C2_counterexample :
    ((Execute demoOk
        (Execute demoFail ((AddCommand (New ["h1"]) "h1" "/bin/true" []).2)).ds).ds.HOSTS.map
        Host.CmdError) = [some "exit status 1"] ∧
    (Execute demoOk
        (Execute demoFail ((AddCommand (New ["h1"]) "h1" "/bin/true" []).2)).ds).err =
      some "h1" := by
  refine ⟨rfl, rfl⟩

/-- C2 amended: on each dispatch, a host's `lastError` is set
(overwriting any earlier value) when the most recent work item fails;
on success it is left UNCHANGED rather than cleared, so it is absent
after a successful run only if no earlier dispatch had failed for that
host.  Stated for the command work function (`runCMD`, on a host with
an assigned command) and the file-retrieval work function
(`getFileTask`), which dispatch calls apply to every host record. -/
theorem C2_lastError_overwritten_on_failure_kept_on_success (t : Transport) (h : Host) :
    (∀ out e, t (sshArgs h) = (out, some e) → (runCMD t h).1.CmdError = some e) ∧
    (h.cmd ≠ "" → ∀ out, t (sshArgs h) = (out, none) → (runCMD t h).1.CmdError = h.CmdError) ∧
    (∀ f d out e, t (scpArgs f d h) = (out, some e) →
      (getFileTask t f d h).1.CmdError = some e) ∧
    (∀ f d out, t (scpArgs f d h) = (out, none) → (getFileTask t f d h).1 = h) := by
  refine ⟨?_, ?_, ?_, ?_⟩
  · intro out e ht
    unfold runCMD
    rw [ht]
  · intro hc out ht
    unfold runCMD
    rw [ht]
    simp [hc]
  · intro f d out e ht
    unfold getFileTask
    rw [ht]
  · intro f d out ht
    unfold getFileTask
    rw [ht]

/-- C2 witness: the amended theorem applied at a concrete host and
transports, with each hypothesis discharged by evaluation. -/
theorem C2_witness :
    (demoFail (sshArgs { Name := "h1", Stdout := "", cmd := "/bin/true", args := [], CmdError := none }) =
      ("out", some "exit status 1") ∧
     (runCMD demoFail { Name := "h1", Stdout := "", cmd := "/bin/true", args := [], CmdError := none }).1.CmdError =
      some "exit status 1") ∧
    (demoOk (sshArgs { Name := "h1", Stdout := "", cmd := "/bin/true", args := [], CmdError := some "stale" }) =
      ("ok", none) ∧
     (runCMD demoOk { Name := "h1", Stdout := "", cmd := "/bin/true", args := [], CmdError := some "stale" }).1.CmdError =
      some "stale") :=
  ⟨⟨rfl,
    (C2_lastError_overwritten_on_failure_kept_on_success demoFail
      { Name := "h1", Stdout := "", cmd := "/bin/true", args := [], CmdError := none }).1
      "out" "exit status 1" rfl⟩,
   ⟨rfl,
    (C2_lastError_overwritten_on_failure_kept_on_success demoOk
      { Name := "h1", Stdout := "", cmd := "/bin/true", args := [], CmdError := some "stale" }).2.1
      (by decide) "ok" rfl⟩⟩

/-- C6: the claim states that a host with no assigned command,
dispatched twice, records the same error both times and that its
`capturedOutput` is not mutated (stays empty).  Because of the missing
`return` in `runCMD` (lines 210-213), the transport IS invoked for
such a host, and its combined output is stored into the record: after
each dispatch with a transport that returns output "ok", the host's
`Stdout` is "ok", not empty.  (The recorded error is indeed the same
both times, as the theorem also shows; the mutation of
`capturedOutput` is what refutes the claim.) -/
theorem C6_no_command_dispatch_mutates_stdout :
    ((Execute demoOk (New ["h1"])).ds.HOSTS.map fun h => (h.Stdout, h.CmdError)) =
      [("ok", some "no available command to execute")] ∧
    ((Execute demoOk (Execute demoOk (New ["h1"])).ds).ds.HOSTS.map fun h => (h.Stdout, h.CmdError)) =
      [("ok", some "no available command to execute")] := by
  refine ⟨rfl, rfl⟩

/-- C3: for every dispatch call (`Execute` and `GetFile`), the call
returns an error if and only if at least one host record has a set
`lastError` after all batches settle; the error text is the
comma-separated list of the failed hosts' identities in session order
with no leading or trailing comma (`commaJoin`), each appearing
exactly once (the failed-name list is duplicate-free).  Hypotheses are
the spec's data-model invariants on identities: unique within a
session (§3), and — implicit in "hostname/address" — nonempty and
comma-free, without which a comma-joined report could not be
well-formed. -/
theorem C3_aggregate_error (t : Transport) (fs dest : String) (ds : DistShell)
    (hname : ∀ h ∈ ds.HOSTS, h.Name ≠ "" ∧ ',' ∉ h.Name.data)
    (hnodup : (ds.HOSTS.map Host.Name).Nodup) :
    ((Execute t ds).err = none ↔
      (((Execute t ds).ds.HOSTS.filter fun h => h.CmdError.isSome).map Host.Name) = []) ∧
    ((((Execute t ds).ds.HOSTS.filter fun h => h.CmdError.isSome).map Host.Name) ≠ [] →
      (Execute t ds).err =
        some (commaJoin
          (((Execute t ds).ds.HOSTS.filter fun h => h.CmdError.isSome).map Host.Name))) ∧
    ((((Execute t ds).ds.HOSTS.filter fun h => h.CmdError.isSome).map Host.Name).Nodup) ∧
    ((GetFile t fs dest ds).err = none ↔
      (((GetFile t fs dest ds).ds.HOSTS.filter fun h => h.CmdError.isSome).map Host.Name) = []) ∧
    ((((GetFile t fs dest ds).ds.HOSTS.filter fun h => h.CmdError.isSome).map Host.Name) ≠ [] →
      (GetFile t fs dest ds).err =
        some (commaJoin
          (((GetFile t fs dest ds).ds.HOSTS.filter fun h => h.CmdError.isSome).map Host.Name))) ∧
    ((((GetFile t fs dest ds).ds.HOSTS.filter fun h => h.CmdError.isSome).map Host.Name).Nodup) := by
  have hnameE : ∀ h ∈ (Execute t ds).ds.HOSTS, h.Name ≠ "" ∧ ',' ∉ h.Name.data := by
    rw [Execute_HOSTS]
    intro h hh
    rcases List.mem_map.mp hh with ⟨x, hx, rfl⟩
    rw [runCMD_Name]
    exact hname x hx
  have hnameG : ∀ h ∈ (GetFile t fs dest ds).ds.HOSTS, h.Name ≠ "" ∧ ',' ∉ h.Name.data := by
    rw [GetFile_HOSTS]
    intro h hh
    rcases List.mem_map.mp hh with ⟨x, hx, rfl⟩
    rw [getFileTask_Name]
    exact hname x hx
  have hnodupE : ((Execute t ds).ds.HOSTS.filter fun h => h.CmdError.isSome).map Host.Name
      |>.Nodup := by
    have hall : ((Execute t ds).ds.HOSTS.map Host.Name).Nodup := by
      rw [Execute_names]; exact hnodup
    exact hall.sublist (List.Sublist.map Host.Name (List.filter_sublist _))
  have hnodupG : ((GetFile t fs dest ds).ds.HOSTS.filter fun h => h.CmdError.isSome).map Host.Name
      |>.Nodup := by
    have hall : ((GetFile t fs dest ds).ds.HOSTS.map Host.Name).Nodup := by
      rw [GetFile_names]; exact hnodup
    exact hall.sublist (List.Sublist.map Host.Name (List.filter_sublist _))
  rcases aggregateError_spec (Execute t ds).ds.HOSTS hnameE with ⟨he1, he2⟩
  rcases aggregateError_spec (GetFile t fs dest ds).ds.HOSTS hnameG with ⟨hg1, hg2⟩
  rw [Execute_err] at *
  rw [GetFile_err] at *
  exact ⟨he1, he2, hnodupE, hg1, hg2, hnodupG⟩

/-- C3 witness: a two-host session in which both hosts fail (no
command was assigned, so each records the "no available command to
execute" error); the call returns the aggregate error "h1,h2"
(equal to `commaJoin` of the failed names), as obtained by applying
the claim theorem at this concrete session. -/
theorem C3_witness :
    (∀ h ∈ (New ["h1", "h2"]).HOSTS, h.Name ≠ "" ∧ ',' ∉ h.Name.data) ∧
    ((New ["h1", "h2"]).HOSTS.map Host.Name).Nodup ∧
    (Execute demoOk (New ["h1", "h2"])).err = some (commaJoin ["h1", "h2"]) ∧
    commaJoin ["h1", "h2"] = "h1,h2" :=
  ⟨by decide, by decide,
   by
    have hc3 := C3_aggregate_error demoOk "/f" "/d" (New ["h1", "h2"]) (by decide) (by decide)
    have hfailed :
        (((Execute demoOk (New ["h1", "h2"])).ds.HOSTS.filter fun h => h.CmdError.isSome).map
          Host.Name) = ["h1", "h2"] := by decide
    have hr := hc3.2.1 (by rw [hfailed]; decide)
    rw [hfailed] at hr
    exact hr,
   by decide⟩

/-- C4: for every dispatch call (`Execute`, and `GetFile` with its scp
work function), assuming every launched work item emits exactly one
completion message (for `Execute` this means every host has an
assigned command; `getFileTask` always emits exactly one), the loop's
event trace is exactly `mkBlocks`: a sequence of batches, where each
batch of size `k` consists of `k` launches followed by one drain
containing exactly those `k` launches' messages — so the loop drains
exactly as many messages as it launched in the current batch, for
every batch, no message leaks into the next batch (`leftover = []`),
batch `k+1` launches nothing before batch `k`'s drain, and every
batch size (hence the number of work items in flight) is at least 1
and at most `maxBatch`, with the batch sizes summing to the host
count. -/
theorem C4_batch_drain_discipline (t : Transport) (fs dest : String) (ds : DistShell)
    (hm : 1 ≤ ds.maxBatch) (hcmd : ∀ h ∈ ds.HOSTS, h.cmd ≠ "") :
    (Execute t ds).trace =
      mkBlocks (ds.HOSTS.map fun h => (runCMD t h).2.1)
        (batchSizesN ds.maxBatch.toNat ds.HOSTS.length) ∧
    (Execute t ds).leftover = [] ∧
    (GetFile t fs dest ds).trace =
      mkBlocks (ds.HOSTS.map fun h => (getFileTask t fs dest h).2.1)
        (batchSizesN ds.maxBatch.toNat ds.HOSTS.length) ∧
    (GetFile t fs dest ds).leftover = [] ∧
    (batchSizesN ds.maxBatch.toNat ds.HOSTS.length).sum = ds.HOSTS.length ∧
    (∀ k ∈ batchSizesN ds.maxBatch.toNat ds.HOSTS.length,
      1 ≤ k ∧ (k : Int) ≤ ds.maxBatch) := by
  have hfE := dispatchLoop_fresh (fun h => ((runCMD t h).1, (runCMD t h).2.1))
    ds.maxBatch hm ds.HOSTS.length ds.HOSTS.length ds.HOSTS [] 0 [] rfl (by omega)
    (fun h hh => runCMD_msgs_length t h (hcmd h hh))
  have hfG := dispatchLoop_fresh
    (fun h => ((getFileTask t fs dest h).1, (getFileTask t fs dest h).2.1))
    ds.maxBatch hm ds.HOSTS.length ds.HOSTS.length ds.HOSTS [] 0 [] rfl (by omega)
    (fun h hh => getFileTask_msgs_length t fs dest h)
  refine ⟨?_, ?_, ?_, ?_, batchSizesN_sum _ _, ?_⟩
  · show (dispatchLoop _ ds.maxBatch ds.HOSTS.length ds.HOSTS [] [] 0 0 []).2.2 = _
    rw [hfE]
    simp
  · show (dispatchLoop _ ds.maxBatch ds.HOSTS.length ds.HOSTS [] [] 0 0 []).2.1 = _
    rw [hfE]
  · show (dispatchLoop _ ds.maxBatch ds.HOSTS.length ds.HOSTS [] [] 0 0 []).2.2 = _
    rw [hfG]
    simp
  · show (dispatchLoop _ ds.maxBatch ds.HOSTS.length ds.HOSTS [] [] 0 0 []).2.1 = _
    rw [hfG]
  · intro k hk
    rcases batchSizesN_mem ds.maxBatch.toNat ds.HOSTS.length k hk with ⟨h1k, h2k⟩
    refine ⟨h1k, ?_⟩
    rw [max_eq_right (by omega : 1 ≤ ds.maxBatch.toNat)] at h2k
    omega

/-- C4 witness: the claim theorem applied to a concrete three-host
session with batch width 2; the trace is the two-batch block
structure `[2, 1]` and the queue is empty at the end. -/
theorem C4_witness :
    (1 ≤ demoDS3.maxBatch ∧ ∀ h ∈ demoDS3.HOSTS, h.cmd ≠ "") ∧
    (Execute demoOk demoDS3).trace =
      mkBlocks (demoDS3.HOSTS.map fun h => (runCMD demoOk h).2.1)
        (batchSizesN demoDS3.maxBatch.toNat demoDS3.HOSTS.length) ∧
    (Execute demoOk demoDS3).leftover = [] ∧
    batchSizesN demoDS3.maxBatch.toNat demoDS3.HOSTS.length = [2, 1] :=
  ⟨⟨by decide, by decide⟩,
   (C4_batch_drain_discipline demoOk "/f" "/d" demoDS3 (by decide) (by decide)).1,
   (C4_batch_drain_discipline demoOk "/f" "/d" demoDS3 (by decide) (by decide)).2.1,
   by
    have h1 : demoDS3.maxBatch.toNat = 2 := rfl
    have h2 : demoDS3.HOSTS.length = 3 := rfl
    rw [h1, h2]
    rw [batchSizesN_succ]
    norm_num
    rw [batchSizesN_succ]
    norm_num
    exact batchSizesN_zero 2⟩

/-- C5: for every session with N hosts and every `maxBatch` at least
N, a dispatch call (`Execute`, `GetFile`) behaves identically to the
same dispatch with `maxBatch` = N: the final host records, the
aggregate error, the event trace (hence the drained messages), and
the leftover queue are all equal; moreover all work items run in a
single batch — exactly one drain event occurs. -/
theorem C5_batch_width_invariance (t : Transport) (fs dest : String) (ds : DistShell)
    (hm : (ds.HOSTS.length : Int) ≤ ds.maxBatch) :
    ((Execute t ds).ds.HOSTS =
        (Execute t (SetMaxBatch ds (ds.HOSTS.length : Int))).ds.HOSTS ∧
      (Execute t ds).err = (Execute t (SetMaxBatch ds (ds.HOSTS.length : Int))).err ∧
      (Execute t ds).trace = (Execute t (SetMaxBatch ds (ds.HOSTS.length : Int))).trace ∧
      (Execute t ds).leftover =
        (Execute t (SetMaxBatch ds (ds.HOSTS.length : Int))).leftover) ∧
    ((GetFile t fs dest ds).ds.HOSTS =
        (GetFile t fs dest (SetMaxBatch ds (ds.HOSTS.length : Int))).ds.HOSTS ∧
      (GetFile t fs dest ds).err =
        (GetFile t fs dest (SetMaxBatch ds (ds.HOSTS.length : Int))).err ∧
      (GetFile t fs dest ds).trace =
        (GetFile t fs dest (SetMaxBatch ds (ds.HOSTS.length : Int))).trace ∧
      (GetFile t fs dest ds).leftover =
        (GetFile t fs dest (SetMaxBatch ds (ds.HOSTS.length : Int))).leftover) ∧
    (ds.HOSTS ≠ [] →
      countDrains (Execute t ds).trace = 1 ∧
      countDrains (GetFile t fs dest ds).trace = 1) := by
  have heqE := dispatchLoop_batch_irrelevant (fun h => ((runCMD t h).1, (runCMD t h).2.1))
    ds.HOSTS.length ds.maxBatch (ds.HOSTS.length : Int) hm (le_refl _)
    ds.HOSTS [] [] 0 0 [] (le_refl 0)
  have heqG := dispatchLoop_batch_irrelevant
    (fun h => ((getFileTask t fs dest h).1, (getFileTask t fs dest h).2.1))
    ds.HOSTS.length ds.maxBatch (ds.HOSTS.length : Int) hm (le_refl _)
    ds.HOSTS [] [] 0 0 [] (le_refl 0)
  refine ⟨?_, ?_, ?_⟩
  · simp only [Execute, SetMaxBatch]
    rw [heqE]
    exact ⟨rfl, rfl, rfl, rfl⟩
  · simp only [GetFile, SetMaxBatch]
    rw [heqG]
    exact ⟨rfl, rfl, rfl, rfl⟩
  · intro hne
    constructor
    · have hd := dispatchLoop_single_drain (fun h => ((runCMD t h).1, (runCMD t h).2.1))
        ds.maxBatch ds.HOSTS.length hm ds.HOSTS [] [] 0 0 [] (le_refl 0) (by simp) hne
      simpa [countDrains] using hd
    · have hd := dispatchLoop_single_drain
        (fun h => ((getFileTask t fs dest h).1, (getFileTask t fs dest h).2.1))
        ds.maxBatch ds.HOSTS.length hm ds.HOSTS [] [] 0 0 [] (le_refl 0) (by simp) hne
      simpa [countDrains] using hd

/-- C5 witness: the claim theorem applied to a concrete two-host
session whose default `maxBatch` of 50 exceeds the host count 2: the
traces coincide and there is exactly one drain. -/
theorem C5_witness :
    (((New ["h1", "h2"]).HOSTS.length : Int) ≤ (New ["h1", "h2"]).maxBatch ∧
      (New ["h1", "h2"]).HOSTS ≠ []) ∧
    (Execute demoOk (New ["h1", "h2"])).trace =
      (Execute demoOk (SetMaxBatch (New ["h1", "h2"]) ((New ["h1", "h2"]).HOSTS.length : Int))).trace ∧
    countDrains (Execute demoOk (New ["h1", "h2"])).trace = 1 :=
  ⟨⟨by decide, by decide⟩,
   (C5_batch_width_invariance demoOk "/f" "/d" (New ["h1", "h2"]) (by decide)).1.2.2.1,
   ((C5_batch_width_invariance demoOk "/f" "/d" (New ["h1", "h2"]) (by decide)).2.2 (by decide)).1⟩

/-- C7 counterexample: the claim states GetFile's per-host task
records success and failure on the host record identically to
`runCMD`, in particular that it records the captured output.  It does
not: with a transport that produces nonempty output (on success or on
failure), the record's `Stdout` stays empty, whereas `runCMD` stores
the transport output; on failure the output appears only inside the
status message. -/
theorem C7_counterexample :
    (getFileTask demoOk "/tmp/f" "/dest"
      { Name := "h1", Stdout := "", cmd := "", args := [], CmdError := none }).1.Stdout = "" ∧
    (getFileTask demoFail "/tmp/f" "/dest"
      { Name := "h1", Stdout := "", cmd := "", args := [], CmdError := none }).1.Stdout = "" ∧
    (runCMD demoOk
      { Name := "h1", Stdout := "", cmd := "/bin/df", args := [], CmdError := none }).1.Stdout = "ok" := by
  refine ⟨rfl, rfl, rfl⟩

/-- C7 amended: GetFile's per-host task sets `lastError` on transport
failure exactly as `runCMD` does, and emits exactly one per-host
status message ("name: ERROR output: err" on failure, "name: SUCCESS"
on success), but — unlike `runCMD`, which stores the transport output
in the record — it never writes `capturedOutput` on the host record:
on failure the captured output is embedded only in the status message,
and on success the record is left entirely unchanged. -/
theorem C7_getFileTask_recording (t : Transport) (f d : String) (h : Host) :
    (∀ out e, t (scpArgs f d h) = (out, some e) →
      getFileTask t f d h =
        ({ h with CmdError := some e },
         [h.Name ++ ": ERROR " ++ out ++ ": " ++ e], [scpArgs f d h])) ∧
    (∀ out, t (scpArgs f d h) = (out, none) →
      getFileTask t f d h = (h, [h.Name ++ ": SUCCESS"], [scpArgs f d h])) ∧
    (getFileTask t f d h).1.Stdout = h.Stdout ∧
    ((getFileTask t f d h).2.1).length = 1 ∧
    (runCMD t h).1.Stdout = (t (sshArgs h)).1 := by
  refine ⟨?_, ?_, getFileTask_Stdout t f d h, getFileTask_msgs_length t f d h,
    runCMD_Stdout t h⟩
  · intro out e ht
    unfold getFileTask
    rw [ht]
  · intro out ht
    unfold getFileTask
    rw [ht]

/-- C7 witness: the amended theorem applied at a concrete host with a
failing and a succeeding transport. -/
theorem C7_witness :
    (demoFail (scpArgs "/tmp/f" "/dest"
        { Name := "h1", Stdout := "", cmd := "", args := [], CmdError := none }) =
      ("out", some "exit status 1") ∧
     getFileTask demoFail "/tmp/f" "/dest"
        { Name := "h1", Stdout := "", cmd := "", args := [], CmdError := none } =
      ({ Name := "h1", Stdout := "", cmd := "", args := [], CmdError := some "exit status 1" },
       ["h1: ERROR out: exit status 1"],
       [["-o", "BatchMode=yes", "-o", "StrictHostKeyChecking=no", "h1:/tmp/f", "/dest"]])) ∧
    (demoOk (scpArgs "/tmp/f" "/dest"
        { Name := "h1", Stdout := "", cmd := "", args := [], CmdError := none }) = ("ok", none) ∧
     getFileTask demoOk "/tmp/f" "/dest"
        { Name := "h1", Stdout := "", cmd := "", args := [], CmdError := none } =
      ({ Name := "h1", Stdout := "", cmd := "", args := [], CmdError := none },
       ["h1: SUCCESS"],
       [["-o", "BatchMode=yes", "-o", "StrictHostKeyChecking=no", "h1:/tmp/f", "/dest"]])) :=
  ⟨⟨rfl,
    by
      have hr := (C7_getFileTask_recording demoFail "/tmp/f" "/dest"
        { Name := "h1", Stdout := "", cmd := "", args := [], CmdError := none }).1
        "out" "exit status 1" rfl
      simpa using hr⟩,
   ⟨rfl,
    by
      have hr := (C7_getFileTask_recording demoOk "/tmp/f" "/dest"
        { Name := "h1", Stdout := "", cmd := "", args := [], CmdError := none }).2.1
        "ok" rfl
      simpa using hr⟩⟩

theorem getHostStdoutList_not_found :
    ∀ (l : List Host) (idv : String), (∀ x ∈ l, x.Name ≠ idv) →
      getHostStdoutList l idv = "no output" := by
  intro l
  induction l with
  | nil => intro idv _; rfl
  | cons x rest ih =>
      intro idv hno
      have hx : x.Name ≠ idv := hno x (List.mem_cons_self x rest)
      simp only [getHostStdoutList, if_neg hx]
      exact ih idv fun y hy => hno y (List.mem_cons_of_mem x hy)

theorem getHostStdoutList_buildHost_mem :
    ∀ (names : List String) (idv : String), idv ∈ names →
      getHostStdoutList (buildHost names) idv = "" := by
  intro names
  induction names with
  | nil => intro idv h; simp at h
  | cons n rest ih =>
      intro idv hmem
      simp only [buildHost, List.map_cons]
      by_cases hn : n = idv
      · simp [getHostStdoutList, hn]
      · have : idv ∈ rest := by
          rcases List.mem_cons.mp hmem with h | h
          · exact absurd h.symm hn
          · exact h
        simp only [getHostStdoutList, if_neg hn]
        exact ih idv this

/-- C8 counterexample: the claim states that an identity that is
unknown to the session OR belongs to a host that never ran yields the
defined empty-output sentinel.  The code has two different results:
an unknown identity yields the literal sentinel "no output" (lines
255-262), while a known host that never ran yields its stored —
empty — output, which is not that sentinel. -/
theorem C8_counterexample :
    GetHostStdout (New ["h1"]) "zz" = "no output" ∧
    GetHostStdout (New ["h1"]) "h1" = "" ∧
    ("" : String) ≠ "no output" := by
  refine ⟨rfl, rfl, by decide⟩

/-- C8 amended: `GetHostStdout` never raises an error; an identity
matching no record of the session returns the "no output" sentinel,
while a known host that never ran returns its stored captured output,
which is the empty string for a freshly constructed session. -/
theorem C8_getHostStdout_total (ds : DistShell) (names : List String) (idv : String) :
    ((∀ x ∈ ds.HOSTS, x.Name ≠ idv) → GetHostStdout ds idv = "no output") ∧
    (idv ∈ names → GetHostStdout (New names) idv = "") := by
  constructor
  · intro hno
    exact getHostStdoutList_not_found ds.HOSTS idv hno
  · intro hmem
    exact getHostStdoutList_buildHost_mem names idv hmem

/-- C8 witness: the amended theorem applied at a concrete session for
both the unknown-identity and the never-ran cases. -/
theorem C8_witness :
    ((∀ x ∈ (New ["h1"]).HOSTS, x.Name ≠ "zz") ∧ "h1" ∈ ["h1"]) ∧
    GetHostStdout (New ["h1"]) "zz" = "no output" ∧
    GetHostStdout (New ["h1"]) "h1" = "" :=
  ⟨⟨by decide, by decide⟩,
   (C8_getHostStdout_total (New ["h1"]) ["h1"] "zz").1 (by decide),
   (C8_getHostStdout_total (New ["h1"]) ["h1"] "h1").2 (by decide)⟩

theorem addCommandList_fst :
    ∀ (l : List Host) (idv c : String) (a : List String),
      ((addCommandList l idv c a).1 = true) ↔ ∃ x ∈ l, x.Name = idv := by
  intro l idv c a
  induction l with
  | nil => simp [addCommandList]
  | cons x rest ih =>
      by_cases hx : x.Name = idv
      · simp [addCommandList, hx]
      · simp only [addCommandList, if_neg hx]
        simp only [List.mem_cons]
        constructor
        · intro h
          rcases ih.mp h with ⟨y, hy, hyn⟩
          exact ⟨y, Or.inr hy, hyn⟩
        · intro ⟨y, hy, hyn⟩
          rcases hy with rfl | hy
          · exact absurd hyn hx
          · exact ih.mpr ⟨y, hy, hyn⟩

theorem map_update_id (l : List Host) (idv c : String) (a : List String)
    (h : ∀ x ∈ l, x.Name ≠ idv) :
    (l.map fun x => if x.Name = idv then { x with cmd := c, args := a } else x) = l := by
  induction l with
  | nil => rfl
  | cons x rest ih =>
      simp only [List.map_cons, if_neg (h x (List.mem_cons_self x rest))]
      rw [ih fun y hy => h y (List.mem_cons_of_mem x hy)]

theorem addCommandList_nodup :
    ∀ (l : List Host) (idv c : String) (a : List String),
      (l.map Host.Name).Nodup →
      (addCommandList l idv c a).2 =
        l.map fun x => if x.Name = idv then { x with cmd := c, args := a } else x := by
  intro l idv c a
  induction l with
  | nil => intro _; rfl
  | cons x rest ih =>
      intro hnodup
      rw [List.map_cons, List.nodup_cons] at hnodup
      obtain ⟨hxn, hrest⟩ := hnodup
      by_cases hx : x.Name = idv
      · simp only [addCommandList, if_pos hx, List.map_cons, if_pos hx]
        rw [map_update_id rest idv c a]
        intro y hy hyn
        have hmem : y.Name ∈ List.map Host.Name rest := List.mem_map_of_mem Host.Name hy
        rw [hyn, ← hx] at hmem
        exact hxn hmem
      · simp only [addCommandList, if_neg hx, List.map_cons, if_neg hx]
        rw [ih hrest]

/-- C9: `AddCommand` assigns the given command and arguments to the
record whose identity matches (under the session invariant that
identities are unique, the update is exactly the pointwise "update
the matching record" map) and returns true; when no record matches it
returns false with the host list unchanged — no error is raised.
Moreover no dispatch operation mutates any record's command or
arguments: `Execute` and `GetFile` preserve the `(cmd, args)` of
every host (the accessors are pure and cannot mutate anything). -/
theorem C9_addCommand_assignment (t : Transport) (fs dest : String) (ds : DistShell)
    (idv c : String) (a : List String)
    (hnodup : (ds.HOSTS.map Host.Name).Nodup) :
    ((AddCommand ds idv c a).1 = true ↔ ∃ x ∈ ds.HOSTS, x.Name = idv) ∧
    ((AddCommand ds idv c a).2.HOSTS =
      ds.HOSTS.map fun x => if x.Name = idv then { x with cmd := c, args := a } else x) ∧
    ((∀ x ∈ ds.HOSTS, x.Name ≠ idv) → AddCommand ds idv c a = (false, ds)) ∧
    ((Execute t ds).ds.HOSTS.map fun x => (x.cmd, x.args)) =
      (ds.HOSTS.map fun x => (x.cmd, x.args)) ∧
    ((GetFile t fs dest ds).ds.HOSTS.map fun x => (x.cmd, x.args)) =
      (ds.HOSTS.map fun x => (x.cmd, x.args)) := by
  refine ⟨addCommandList_fst ds.HOSTS idv c a, addCommandList_nodup ds.HOSTS idv c a hnodup,
    ?_, ?_, ?_⟩
  · intro hno
    have h1 : (addCommandList ds.HOSTS idv c a).1 = false := by
      rcases hb : (addCommandList ds.HOSTS idv c a).1 with _ | _
      · rfl
      · rcases (addCommandList_fst ds.HOSTS idv c a).mp hb with ⟨y, hy, hyn⟩
        exact absurd hyn (hno y hy)
    have h2 : (addCommandList ds.HOSTS idv c a).2 = ds.HOSTS := by
      rw [addCommandList_nodup ds.HOSTS idv c a hnodup, map_update_id ds.HOSTS idv c a hno]
    show ((addCommandList ds.HOSTS idv c a).1, { ds with HOSTS := (addCommandList ds.HOSTS idv c a).2 }) = (false, ds)
    rw [h1, h2]
  · rw [Execute_HOSTS, List.map_map]
    apply List.map_congr_left
    intro x _
    rcases runCMD_cmd_args t x with ⟨h1, h2⟩
    show ((runCMD t x).1.cmd, (runCMD t x).1.args) = (x.cmd, x.args)
    rw [h1, h2]
  · rw [GetFile_HOSTS, List.map_map]
    apply List.map_congr_left
    intro x _
    rcases getFileTask_cmd_args t fs dest x with ⟨h1, h2⟩
    show ((getFileTask t fs dest x).1.cmd, (getFileTask t fs dest x).1.args) = (x.cmd, x.args)
    rw [h1, h2]

/-- C9 witness: the claim theorem applied at a concrete two-host
session: assigning to "h1" succeeds and updates exactly that record;
assigning to an unknown identity returns false and changes nothing;
a dispatch leaves every record's command and arguments unchanged. -/
theorem C9_witness :
    ((New ["h1", "h2"]).HOSTS.map Host.Name).Nodup ∧
    (AddCommand (New ["h1", "h2"]) "h1" "/bin/df" ["-h"]).2.HOSTS =
      [{ Name := "h1", Stdout := "", cmd := "/bin/df", args := ["-h"], CmdError := none },
       { Name := "h2", Stdout := "", cmd := "", args := [], CmdError := none }] ∧
    AddCommand (New ["h1", "h2"]) "zz" "/bin/df" [] = (false, New ["h1", "h2"]) ∧
    ((Execute demoOk (New ["h1", "h2"])).ds.HOSTS.map fun x => (x.cmd, x.args)) =
      ((New ["h1", "h2"]).HOSTS.map fun x => (x.cmd, x.args)) :=
  ⟨by decide,
   by
    rw [(C9_addCommand_assignment demoOk "/f" "/d" (New ["h1", "h2"]) "h1" "/bin/df" ["-h"]
      (by decide)).2.1]
    decide,
   (C9_addCommand_assignment demoOk "/f" "/d" (New ["h1", "h2"]) "zz" "/bin/df" []
      (by decide)).2.2.1 (by decide),
   (C9_addCommand_assignment demoOk "/f" "/d" (New ["h1", "h2"]) "h1" "/bin/df" ["-h"]
      (by decide)).2.2.2.1⟩

theorem addCommandList_firstMatch (x : Host) (post : List Host) (idv c : String)
    (a : List String) (hx : x.Name = idv) :
    ∀ pre : List Host, (∀ y ∈ pre, y.Name ≠ idv) →
      addCommandList (pre ++ x :: post) idv c a =
        (true, pre ++ { x with cmd := c, args := a } :: post) := by
  intro pre
  induction pre with
  | nil => intro _; simp [addCommandList, hx]
  | cons y pre' ih =>
      intro hpre
      have hy : y.Name ≠ idv := hpre y (List.mem_cons_self y pre')
      simp only [List.cons_append, addCommandList, if_neg hy, List.append_eq]
      rw [ih fun z hz => hpre z (List.mem_cons_of_mem y hz)]

theorem getHostStdoutList_firstMatch (x : Host) (post : List Host) (idv : String)
    (hx : x.Name = idv) :
    ∀ pre : List Host, (∀ y ∈ pre, y.Name ≠ idv) →
      getHostStdoutList (pre ++ x :: post) idv = x.Stdout := by
  intro pre
  induction pre with
  | nil => intro _; simp [getHostStdoutList, hx]
  | cons y pre' ih =>
      intro hpre
      have hy : y.Name ≠ idv := hpre y (List.mem_cons_self y pre')
      simp only [List.cons_append, getHostStdoutList, if_neg hy, List.append_eq]
      exact ih fun z hz => hpre z (List.mem_cons_of_mem y hz)

/-- C10: when the session's host list contains duplicate identities,
the identity-lookup operations act on the FIRST matching record only:
`AddCommand` updates the first record with the given identity and
leaves every earlier non-matching record and every later record
(including later duplicates) unchanged, returning true; and
`GetHostStdout` returns the first matching record's captured
output. -/
theorem C10_first_match_only (pre post : List Host) (x : Host) (idv c : String)
    (a : List String) (mon : Bool) (mb : Int)
    (hx : x.Name = idv) (hpre : ∀ y ∈ pre, y.Name ≠ idv) :
    AddCommand ⟨pre ++ x :: post, mon, mb⟩ idv c a =
      (true, ⟨pre ++ { x with cmd := c, args := a } :: post, mon, mb⟩) ∧
    GetHostStdout ⟨pre ++ x :: post, mon, mb⟩ idv = x.Stdout := by
  constructor
  · show ((addCommandList (pre ++ x :: post) idv c a).1,
      ({ HOSTS := (addCommandList (pre ++ x :: post) idv c a).2, monitor := mon,
         maxBatch := mb } : DistShell)) = _
    rw [addCommandList_firstMatch x post idv c a hx pre hpre]
  · exact getHostStdoutList_firstMatch x post idv hx pre hpre

/-- C10 witness: a session with two records named "d"; the update
lands on the first and the second is untouched; the output accessor
returns the first record's output. -/
theorem C10_witness :
    (({ Name := "d", Stdout := "first", cmd := "", args := [], CmdError := none } : Host).Name = "d" ∧
     (∀ y ∈ [({ Name := "a", Stdout := "", cmd := "", args := [], CmdError := none } : Host)],
        y.Name ≠ "d")) ∧
    AddCommand
        ⟨[{ Name := "a", Stdout := "", cmd := "", args := [], CmdError := none },
          { Name := "d", Stdout := "first", cmd := "", args := [], CmdError := none },
          { Name := "d", Stdout := "second", cmd := "", args := [], CmdError := none }],
         true, 50⟩ "d" "/bin/df" [] =
      (true,
       ⟨[{ Name := "a", Stdout := "", cmd := "", args := [], CmdError := none },
         { Name := "d", Stdout := "first", cmd := "/bin/df", args := [], CmdError := none },
         { Name := "d", Stdout := "second", cmd := "", args := [], CmdError := none }],
        true, 50⟩) ∧
    GetHostStdout
        ⟨[{ Name := "a", Stdout := "", cmd := "", args := [], CmdError := none },
          { Name := "d", Stdout := "first", cmd := "", args := [], CmdError := none },
          { Name := "d", Stdout := "second", cmd := "", args := [], CmdError := none }],
         true, 50⟩ "d" = "first" :=
  ⟨⟨by decide, by decide⟩,
   (C10_first_match_only
      [{ Name := "a", Stdout := "", cmd := "", args := [], CmdError := none }]
      [{ Name := "d", Stdout := "second", cmd := "", args := [], CmdError := none }]
      { Name := "d", Stdout := "first", cmd := "", args := [], CmdError := none }
      "d" "/bin/df" [] true 50 (by decide) (by decide)).1,
   (C10_first_match_only
      [{ Name := "a", Stdout := "", cmd := "", args := [], CmdError := none }]
      [{ Name := "d", Stdout := "second", cmd := "", args := [], CmdError := none }]
      { Name := "d", Stdout := "first", cmd := "", args := [], CmdError := none }
      "d" "/bin/df" [] true 50 (by decide) (by decide)).2⟩
